import Mathlib

/-!
Shallow embedding of the GitHub Sub-Issue Closer core (`src/lib/core.js`).

The embedding models:
  * `parseIssueInput` — the reference resolver (two regular expressions,
    modelled as executable functions on `List Char`);
  * `processIssueRecursively` — the recursive completion propagator, with the
    remote store (`octokit`) modelled as a response oracle that may inspect the
    history of calls made so far, an explicit trace of store calls, an explicit
    observation channel of emitted display lines, and a fuel parameter making
    the (possibly divergent) JS recursion total.
-/

namespace SubIssueCloser

/-! ## Data model -/

/-- `sub_issues_summary` field of an issue, as returned by the API. -/
structure Summary where
  total : Nat
  completed : Nat
  percent_completed : Nat
deriving DecidableEq

/-- An issue record as consumed by `core.js`: only the fields the code reads.
`state` is the literal state string (the code compares it with `"closed"`). -/
structure Issue where
  title : String
  state : String
  sub_issues_summary : Option Summary
deriving DecidableEq

/-- An entry of the sub-issue listing: the code reads `number` and
`repository_url`. -/
structure SubIssueRec where
  number : Nat
  repository_url : String
deriving DecidableEq

/-- Result of `parseIssueInput`. -/
structure ParsedIssue where
  owner : String
  repo : String
  issue_number : Nat
deriving DecidableEq

/-! ## Reference resolver (`parseIssueInput`) -/

/-- Splits a character list at the first occurrence of `c`:
`breakAt c l = some (a, b)` iff `l = a ++ c :: b` with `c ∉ a`.
This models how the anchored regex `^([^\/]+)\/([^#]+)#(\d+)$` commits to the
first `/` and then the first `#` (the character classes exclude the
delimiters, so greedy matching cannot cross them). -/
def breakAt (c : Char) : List Char → Option (List Char × List Char)
  | [] => none
  | x :: xs =>
    if x = c then some ([], xs)
    else
      match breakAt c xs with
      | some (a, b) => some (x :: a, b)
      | none => none

/-- Value of `parseInt` on a run of decimal digits. -/
def parseIntDec (ds : List Char) : Nat :=
  ds.foldl (fun acc c => acc * 10 + (c.toNat - 48)) 0

/-- The short pattern `^([^\/]+)\/([^#]+)#(\d+)$` from `parseIssueInput`. -/
def shortMatch (s : String) : Option ParsedIssue :=
  match breakAt '/' s.data with
  | none => none
  | some (a, rest) =>
    if a = [] then none
    else
      match breakAt '#' rest with
      | none => none
      | some (b, c) =>
        if b = [] then none
        else if c ≠ [] ∧ c.all Char.isDigit then
          some ⟨String.mk a, String.mk b, parseIntDec c⟩
        else none

/-- Literal-matching helper: `stripLit p cs = some rest` iff `cs = p ++ rest`. -/
def stripLit : List Char → List Char → Option (List Char)
  | [], cs => some cs
  | _ :: _, [] => none
  | p :: ps, c :: cs => if c = p then stripLit ps cs else none

/-- One attempt of the unanchored regex
`github\.com\/([^\/]+)\/([^\/]+)\/issues\/(\d+)` at the start of `cs`.
Both character-class groups are runs excluding `/`, so greedy matching is
forced to the maximal non-slash run; the digits group is the maximal digit
run after the literal `/issues/` and must be non-empty. -/
def urlMatchAt (cs : List Char) : Option ParsedIssue :=
  match stripLit "github.com/".data cs with
  | none => none
  | some r0 =>
    let ow := r0.takeWhile (fun c => c ≠ '/')
    if ow = [] then none
    else
      match r0.dropWhile (fun c => c ≠ '/') with
      | '/' :: r2 =>
        let rp := r2.takeWhile (fun c => c ≠ '/')
        if rp = [] then none
        else
          match stripLit "/issues/".data (r2.dropWhile (fun c => c ≠ '/')) with
          | none => none
          | some r4 =>
            let ds := r4.takeWhile Char.isDigit
            if ds = [] then none
            else some ⟨String.mk ow, String.mk rp, parseIntDec ds⟩
      | _ => none

/-- Leftmost-match search of the unanchored URL regex: try every start
position from the left, as the JS regex engine does. -/
def urlSearch : List Char → Option ParsedIssue
  | [] => none
  | c :: cs =>
    match urlMatchAt (c :: cs) with
    | some p => some p
    | none => urlSearch cs

/-- `parseIssueInput` from `core.js`: the short pattern is tried first, then
the URL pattern; `none` models the JS `null` return. -/
def parseIssueInput (s : String) : Option ParsedIssue :=
  match shortMatch s with
  | some p => some p
  | none => urlSearch s.data

/-! ## Remote store model -/

/-- One call made to the octokit store.  Mutating calls record the exact
payload fields the code sends. -/
inductive Call
  | get (owner repo : String) (issue_number : Nat)
  | list (owner repo : String) (issue_number : Nat) (per_page : Nat)
  | update (owner repo : String) (issue_number : Nat) (state state_reason : String)
  | comment (owner repo : String) (issue_number : Nat) (body : String)
deriving DecidableEq

/-- Response of the store to `octokit.rest.issues.get`. -/
inductive GetResp
  | ok (issue : Issue)
  | notFound
  | err (code : Nat)
deriving DecidableEq

/-- Response of the store to `octokit.rest.issues.listSubIssues`. -/
inductive ListResp
  | ok (subs : List SubIssueRec)
  | notFound
  | err (code : Nat)
deriving DecidableEq

/-- The octokit collaborator, as a deterministic response oracle.  A response
may depend on the full history of calls made so far (first argument), which
lets the modelled store change its answers after mutations — in particular the
re-fetch of an issue after its children were processed may see a different
completion summary. -/
structure Octokit where
  getF : List Call → String → String → Nat → GetResp
  listF : List Call → String → String → Nat → Nat → ListResp

/-- One display line written to the observation channel; each constructor is
one `console.log` site of `processIssueRecursively`, carrying exactly the data
interpolated there. -/
inductive OutEvent
  | header (depth : Nat) (closedSym : Bool) (ref title : String)
  | alreadyClosed (depth : Nat)
  | noSubIssues (depth : Nat)
  | summaryLine (depth completed total percent : Nat)
  | wouldCloseVerbose (depth : Nat)
  | wouldCloseQuiet (ref title : String)
  | closingVerbose (depth : Nat)
  | closedQuiet (ref title : String)
  | keepingOpen (depth completed total : Nat)
deriving DecidableEq

/-- Interpreter state: the trace of store calls made so far and the
observation channel. -/
structure S where
  trace : List Call
  out : List OutEvent
deriving DecidableEq

/-- Append one display line to the observation channel. -/
def S.emit (s : S) (e : OutEvent) : S := ⟨s.trace, s.out ++ [e]⟩

/-- Exceptions thrown by the core: a descriptive `new Error(message)`, or a
store failure rethrown unchanged (identified by its code). -/
inductive Exc
  | msg (text : String)
  | store (code : Nat)
deriving DecidableEq

/-- Outcome of a (fuel-bounded) run. -/
inductive Res
  | ok (processed closed : Nat)
  | exc (e : Exc)
  | diverge
deriving DecidableEq

/-- `getIssue` from `core.js`: fetch an issue; a 404 is turned into a
descriptive `Error` naming the id and the container, any other failure is
rethrown unchanged. -/
def getIssue (ok : Octokit) (s : S) (owner repo : String) (issue_number : Nat) :
    S × Except Exc Issue :=
  let s' : S := ⟨s.trace ++ [Call.get owner repo issue_number], s.out⟩
  match ok.getF s.trace owner repo issue_number with
  | GetResp.ok i => (s', Except.ok i)
  | GetResp.notFound =>
      (s', Except.error (Exc.msg
        ("Issue #" ++ toString issue_number ++ " not found in " ++ owner ++ "/" ++ repo)))
  | GetResp.err code => (s', Except.error (Exc.store code))

/-- `getSubIssues` from `core.js`: a single listing request with
`per_page: 100`; a 404 yields the empty list, any other failure is rethrown. -/
def getSubIssues (ok : Octokit) (s : S) (owner repo : String) (issue_number : Nat) :
    S × Except Exc (List SubIssueRec) :=
  let s' : S := ⟨s.trace ++ [Call.list owner repo issue_number 100], s.out⟩
  match ok.listF s.trace owner repo issue_number 100 with
  | ListResp.ok subs => (s', Except.ok subs)
  | ListResp.notFound => (s', Except.ok [])
  | ListResp.err code => (s', Except.error (Exc.store code))

/-- `closeIssue` from `core.js`: transition the issue to `closed` with reason
`completed`, then post the explanatory comment. -/
def closeIssue (s : S) (owner repo : String) (issue_number : Nat) (reason : String) : S :=
  ⟨s.trace ++ [Call.update owner repo issue_number "closed" "completed",
               Call.comment owner repo issue_number ("🤖 Automatically closed: " ++ reason)],
   s.out⟩

/-- JS `str.split(sep)` for a one-character separator, on the character
list: splits at every occurrence of `c`, keeping empty segments (so the
result always has one more segment than there are separators). -/
def splitChar (c : Char) : List Char → List (List Char)
  | [] => [[]]
  | x :: xs =>
    match splitChar c xs with
    | h :: t => if x = c then [] :: h :: t else (x :: h) :: t
    | [] => if x = c then [[], []] else [[x]]

/-- `subIssue.repository_url.split("/").slice(-2, -1)[0]` — the owner segment
of a child record's repository URL.  (When the URL has fewer than two
segments, the JS expression yields `undefined`; that edge is represented by
the placeholder string, and is never reached for API-shaped URLs.) -/
def subIssueOwner (url : String) : String :=
  let parts := splitChar '/' url.data
  if parts.length < 2 then "undefined"
  else String.mk (parts.getD (parts.length - 2) [])

/-- `subIssue.repository_url.split("/").pop()` — the repo segment of a child
record's repository URL (`split` never returns an empty array, so `pop()`
yields the last segment). -/
def subIssueRepo (url : String) : String :=
  String.mk ((splitChar '/' url.data).getLastD [])

/-- The closure condition tested on the re-fetched issue:
`updatedSummary && updatedSummary.percent_completed === 100`. -/
def closeEligible (i : Issue) : Bool :=
  match i.sub_issues_summary with
  | some u => u.percent_completed == 100
  | none => false

/-- The `for (const subIssue of subIssues)` loop of
`processIssueRecursively`: each child's container is read from that child's
own `repository_url`; the child results are accumulated, and a child
exception aborts the loop immediately. -/
def runChildren (child : String → String → Nat → S → S × Res) :
    List SubIssueRec → S → S × Res
  | [], s => (s, Res.ok 0 0)
  | sub :: rest, s =>
    match child (subIssueOwner sub.repository_url) (subIssueRepo sub.repository_url)
        sub.number s with
    | (s1, Res.ok p c) =>
      match runChildren child rest s1 with
      | (s2, Res.ok p2 c2) => (s2, Res.ok (p + p2) (c + c2))
      | other => other
    | other => other

/-- The final part of `processIssueRecursively` (after all children are
visited): re-fetch the current issue from the store and decide closure from
the re-fetched summary; `p`, `c` are the counts accumulated over the
children. -/
def closeDecision (ok : Octokit) (owner repo : String) (issue_number depth : Nat)
    (dryRun verbose : Bool) (issueRef title : String) (p c : Nat) (s5 : S) : S × Res :=
  match getIssue ok s5 owner repo issue_number with
  | (s6, Except.error e) => (s6, Res.exc e)
  | (s6, Except.ok updated) =>
    if closeEligible updated then
      if dryRun then
        (s6.emit (if verbose then OutEvent.wouldCloseVerbose depth
          else OutEvent.wouldCloseQuiet issueRef title),
         Res.ok (1 + p) (c + 1))
      else
        (closeIssue
          (s6.emit (if verbose then OutEvent.closingVerbose depth
            else OutEvent.closedQuiet issueRef title))
          owner repo issue_number "All sub-issues are now complete",
         Res.ok (1 + p) (c + 1))
    else
      (if verbose then
        s6.emit (OutEvent.keepingOpen depth
          (match updated.sub_issues_summary with
            | some u => u.completed
            | none => 0)
          (match updated.sub_issues_summary with
            | some u => u.total
            | none => 0))
       else s6,
       Res.ok (1 + p) c)

/-- Dispatch on the outcome of the child loop: a child exception (or fuel
exhaustion) aborts the whole call, otherwise the closure decision runs with
the accumulated counts. -/
def afterChildren (ok : Octokit) (owner repo : String) (issue_number depth : Nat)
    (dryRun verbose : Bool) (title : String) : S × Res → S × Res
  | (s5, Res.ok p c) =>
    closeDecision ok owner repo issue_number depth dryRun verbose
      (owner ++ "/" ++ repo ++ "#" ++ toString issue_number) title p c s5
  | (s5, Res.exc e) => (s5, Res.exc e)
  | (s5, Res.diverge) => (s5, Res.diverge)

/-- `processIssueRecursively` from `core.js`, with a fuel bound on the
recursion depth (the JS recursion is unbounded; `Res.diverge` marks fuel
exhaustion, which no theorem below identifies with a program behaviour). -/
def processIssueRecursively (ok : Octokit) :
    Nat → String → String → Nat → Nat → Bool → Bool → S → S × Res
  | 0, _, _, _, _, _, _, s => (s, Res.diverge)
  | Nat.succ fuel, owner, repo, issue_number, depth, dryRun, verbose, s =>
    match getIssue ok s owner repo issue_number with
    | (s1, Except.error e) => (s1, Res.exc e)
    | (s1, Except.ok issue) =>
      let issueRef := owner ++ "/" ++ repo ++ "#" ++ toString issue_number
      let s2 := if verbose
        then s1.emit (OutEvent.header depth (issue.state == "closed") issueRef issue.title)
        else s1
      if issue.state == "closed" then
        (if verbose then s2.emit (OutEvent.alreadyClosed depth) else s2, Res.ok 0 0)
      else
        match issue.sub_issues_summary with
        | none =>
          (if verbose then s2.emit (OutEvent.noSubIssues depth) else s2, Res.ok 1 0)
        | some summary =>
          if summary.total == 0 then
            (if verbose then s2.emit (OutEvent.noSubIssues depth) else s2, Res.ok 1 0)
          else
            let s3 := if verbose
              then s2.emit (OutEvent.summaryLine depth summary.completed summary.total
                summary.percent_completed)
              else s2
            match getSubIssues ok s3 owner repo issue_number with
            | (s4, Except.error e) => (s4, Res.exc e)
            | (s4, Except.ok subs) =>
              afterChildren ok owner repo issue_number depth dryRun verbose issue.title
                (runChildren
                  (fun o r n s' => processIssueRecursively ok fuel o r n (depth + 1) dryRun verbose s')
                  subs s4)

/-! ## Basic lemmas about the interpreter state -/

@[simp] lemma S_emit_trace (s : S) (e : OutEvent) : (s.emit e).trace = s.trace := rfl

@[simp] lemma S_emit_out (s : S) (e : OutEvent) : (s.emit e).out = s.out ++ [e] := rfl

@[simp] lemma trace_ite_emit (v : Bool) (s : S) (e : OutEvent) :
    (if v then s.emit e else s).trace = s.trace := by
  cases v <;> rfl

/-- Store calls that mutate the remote store (`update`, `createComment`). -/
def mutating : Call → Bool
  | Call.update _ _ _ _ _ => true
  | Call.comment _ _ _ _ => true
  | _ => false

/-- The mutating calls contained in a trace. -/
def mutCalls (t : List Call) : List Call := t.filter mutating

@[simp] lemma mutCalls_append (t₁ t₂ : List Call) :
    mutCalls (t₁ ++ t₂) = mutCalls t₁ ++ mutCalls t₂ := by
  simp [mutCalls]

@[simp] lemma mutCalls_get (o r : String) (n : Nat) :
    mutCalls [Call.get o r n] = [] := rfl

@[simp] lemma mutCalls_list (o r : String) (n pp : Nat) :
    mutCalls [Call.list o r n pp] = [] := rfl

/-! ## C3: already-closed items are skipped without visiting children -/

/-- C3: for every reference whose fetched item has state `closed`,
`processIssueRecursively` returns `{processed: 0, closed: 0}` and the only
store call it makes is that single fetch — children are never listed or
visited and no mutating call is issued, for any depth, dry-run flag and
verbosity.  In particular a tree whose root is closed (hence a tree in which
every node is closed) yields `{0, 0}` with zero mutating calls. -/
theorem skipClosed_noChildVisit (ok : Octokit) (fuel : Nat) (o r : String)
    (n depth : Nat) (dr v : Bool) (s : S) (issue : Issue)
    (hget : ok.getF s.trace o r n = GetResp.ok issue)
    (hclosed : issue.state = "closed") :
    (processIssueRecursively ok (fuel + 1) o r n depth dr v s).2 = Res.ok 0 0
    ∧ (processIssueRecursively ok (fuel + 1) o r n depth dr v s).1.trace
        = s.trace ++ [Call.get o r n]
    ∧ mutCalls ((processIssueRecursively ok (fuel + 1) o r n depth dr v s).1.trace)
        = mutCalls s.trace := by
  simp only [processIssueRecursively, getIssue, hget, hclosed]
  simp

/-- Witness for C3 at a concrete store. -/
def okClosedW : Octokit where
  getF := fun _ _ _ _ => GetResp.ok ⟨"Closed Issue", "closed", none⟩
  listF := fun _ _ _ _ _ => ListResp.ok []

theorem skipClosed_noChildVisit_witness :
    (processIssueRecursively okClosedW 5 "owner" "repo" 1 0 false false ⟨[], []⟩).2
        = Res.ok 0 0
    ∧ (processIssueRecursively okClosedW 5 "owner" "repo" 1 0 false false ⟨[], []⟩).1.trace
        = [Call.get "owner" "repo" 1] :=
  ⟨(skipClosed_noChildVisit okClosedW 4 "owner" "repo" 1 0 false false ⟨[], []⟩
      ⟨"Closed Issue", "closed", none⟩ rfl rfl).1,
   by
    have h := (skipClosed_noChildVisit okClosedW 4 "owner" "repo" 1 0 false false ⟨[], []⟩
      ⟨"Closed Issue", "closed", none⟩ rfl rfl).2.1
    simpa using h⟩

/-! ## C4: open leaf items (no summary, or total 0) -/

/-- C4: for every open item that has no completion summary, or whose summary
has `total = 0`, the propagator returns `{processed: 1, closed: 0}` without
recursing (the only store call is the single fetch) and without any mutating
store call. -/
theorem leafRule (ok : Octokit) (fuel : Nat) (o r : String)
    (n depth : Nat) (dr v : Bool) (s : S) (issue : Issue)
    (hget : ok.getF s.trace o r n = GetResp.ok issue)
    (hopen : issue.state ≠ "closed")
    (hleaf : issue.sub_issues_summary = none
      ∨ ∃ summary, issue.sub_issues_summary = some summary ∧ summary.total = 0) :
    (processIssueRecursively ok (fuel + 1) o r n depth dr v s).2 = Res.ok 1 0
    ∧ (processIssueRecursively ok (fuel + 1) o r n depth dr v s).1.trace
        = s.trace ++ [Call.get o r n]
    ∧ mutCalls ((processIssueRecursively ok (fuel + 1) o r n depth dr v s).1.trace)
        = mutCalls s.trace := by
  rcases hleaf with hnone | ⟨summary, hsome, htot⟩
  · simp only [processIssueRecursively, getIssue, hget, hnone, beq_iff_eq,
      if_neg hopen]
    simp
  · simp only [processIssueRecursively, getIssue, hget, hsome, htot, beq_iff_eq,
      if_neg hopen]
    simp

/-- Witness for C4 at a concrete store. -/
def okLeafW : Octokit where
  getF := fun _ _ _ _ => GetResp.ok ⟨"No Sub-issues", "open", some ⟨0, 0, 0⟩⟩
  listF := fun _ _ _ _ _ => ListResp.ok []

theorem leafRule_witness :
    (processIssueRecursively okLeafW 1 "owner" "repo" 1 0 false false ⟨[], []⟩).2
        = Res.ok 1 0
    ∧ (processIssueRecursively okLeafW 1 "owner" "repo" 1 0 false false ⟨[], []⟩).1.trace
        = [Call.get "owner" "repo" 1] :=
  ⟨(leafRule okLeafW 0 "owner" "repo" 1 0 false false ⟨[], []⟩
      ⟨"No Sub-issues", "open", some ⟨0, 0, 0⟩⟩ rfl (by decide)
      (Or.inr ⟨⟨0, 0, 0⟩, rfl, rfl⟩)).1,
   by
    have h := (leafRule okLeafW 0 "owner" "repo" 1 0 false false ⟨[], []⟩
      ⟨"No Sub-issues", "open", some ⟨0, 0, 0⟩⟩ rfl (by decide)
      (Or.inr ⟨⟨0, 0, 0⟩, rfl, rfl⟩)).2.1
    simpa using h⟩

/-! ## Trace shape lemmas -/

/-- The child loop only appends to the call trace. -/
lemma runChildren_trace_mono (child : String → String → Nat → S → S × Res)
    (hchild : ∀ o r n s, ∃ t, (child o r n s).1.trace = s.trace ++ t) :
    ∀ (subs : List SubIssueRec) (s : S),
      ∃ t, (runChildren child subs s).1.trace = s.trace ++ t := by
  intro subs
  induction subs with
  | nil => intro s; exact ⟨[], by simp [runChildren]⟩
  | cons sub rest ih =>
    intro s
    obtain ⟨t1, h1⟩ := hchild (subIssueOwner sub.repository_url)
      (subIssueRepo sub.repository_url) sub.number s
    rcases hres : child (subIssueOwner sub.repository_url)
        (subIssueRepo sub.repository_url) sub.number s with ⟨s1, r⟩
    simp only [hres] at h1
    cases r with
    | ok p c =>
      obtain ⟨t2, h2⟩ := ih s1
      rcases hrec : runChildren child rest s1 with ⟨s2, r2⟩
      simp only [hrec] at h2
      cases r2 with
      | ok p2 c2 =>
        exact ⟨t1 ++ t2, by simp [runChildren, hres, hrec, h2, h1, List.append_assoc]⟩
      | exc e =>
        exact ⟨t1 ++ t2, by simp [runChildren, hres, hrec, h2, h1, List.append_assoc]⟩
      | diverge =>
        exact ⟨t1 ++ t2, by simp [runChildren, hres, hrec, h2, h1, List.append_assoc]⟩
    | exc e => exact ⟨t1, by simp [runChildren, hres, h1]⟩
    | diverge => exact ⟨t1, by simp [runChildren, hres, h1]⟩

/-- The interpreter state at the point where the child loop starts for an
open issue with a non-empty completion summary: the item fetch and the single
child-listing request have been traced, and (in verbose mode) the header and
ratio lines emitted. -/
def childLoopState (s : S) (o r : String) (n depth : Nat) (v : Bool)
    (issue : Issue) (summary : Summary) : S :=
  ⟨s.trace ++ [Call.get o r n, Call.list o r n 100],
   s.out ++ (if v then
      [OutEvent.header depth (issue.state == "closed")
        (o ++ "/" ++ r ++ "#" ++ toString n) issue.title,
       OutEvent.summaryLine depth summary.completed summary.total
         summary.percent_completed]
    else [])⟩

/-- Unfolding `processIssueRecursively` on an open issue with a non-empty
summary, given the store's responses to the first fetch and to the child
listing (a not-found listing yields the empty child list). -/
lemma processIssue_open_eq (ok : Octokit) (fuel : Nat) (o r : String)
    (n depth : Nat) (dr v : Bool) (s : S) (issue : Issue) (summary : Summary)
    (subs : List SubIssueRec)
    (hg : ok.getF s.trace o r n = GetResp.ok issue)
    (hcl : (issue.state == "closed") = false)
    (hsum : issue.sub_issues_summary = some summary)
    (htot : (summary.total == 0) = false)
    (hl : ok.listF (s.trace ++ [Call.get o r n]) o r n 100 = ListResp.ok subs
        ∨ (ok.listF (s.trace ++ [Call.get o r n]) o r n 100 = ListResp.notFound
            ∧ subs = [])) :
    processIssueRecursively ok (fuel + 1) o r n depth dr v s
      = afterChildren ok o r n depth dr v issue.title
          (runChildren
            (fun o' r' n' s' =>
              processIssueRecursively ok fuel o' r' n' (depth + 1) dr v s')
            subs (childLoopState s o r n depth v issue summary)) := by
  rcases hl with hl | ⟨hl, rfl⟩ <;>
  · cases v <;>
      simp [processIssueRecursively, getIssue, getSubIssues, hg, hcl, hsum, htot,
        hl, childLoopState, S.emit, List.append_assoc]

/-- The closure-decision continuation only appends to the call trace. -/
lemma closeDecision_trace_mono (ok : Octokit) (o r : String) (n depth : Nat)
    (dr v : Bool) (ref title : String) (p c : Nat) (s5 : S) :
    ∃ t, (closeDecision ok o r n depth dr v ref title p c s5).1.trace
      = s5.trace ++ t := by
  cases hg : ok.getF s5.trace o r n with
  | notFound => exact ⟨[Call.get o r n], by simp [closeDecision, getIssue, hg]⟩
  | err code => exact ⟨[Call.get o r n], by simp [closeDecision, getIssue, hg]⟩
  | ok updated =>
    cases he : closeEligible updated with
    | false => exact ⟨[Call.get o r n], by simp [closeDecision, getIssue, hg, he]⟩
    | true =>
      cases dr with
      | true => exact ⟨[Call.get o r n], by simp [closeDecision, getIssue, hg, he]⟩
      | false =>
        exact ⟨[Call.get o r n, Call.update o r n "closed" "completed",
            Call.comment o r n
              ("🤖 Automatically closed: " ++ "All sub-issues are now complete")],
          by simp [closeDecision, getIssue, closeIssue, hg, he, List.append_assoc]⟩

/-- `afterChildren` only appends to the call trace of the child-loop result. -/
lemma afterChildren_trace_mono (ok : Octokit) (o r : String) (n depth : Nat)
    (dr v : Bool) (title : String) (x : S × Res) :
    ∃ t, (afterChildren ok o r n depth dr v title x).1.trace = x.1.trace ++ t := by
  rcases x with ⟨s5, r5⟩
  cases r5 with
  | ok p c =>
    simpa [afterChildren] using
      closeDecision_trace_mono ok o r n depth dr v
        (o ++ "/" ++ r ++ "#" ++ toString n) title p c s5
  | exc e => exact ⟨[], by simp [afterChildren]⟩
  | diverge => exact ⟨[], by simp [afterChildren]⟩

/-- Tail of the trace-shape induction: the open-with-children branch. -/
lemma processIssue_shape_tail (ok : Octokit) (fuel : Nat) (o r : String)
    (n depth : Nat) (dr v : Bool) (s : S) (issue : Issue) (summary : Summary)
    (subs : List SubIssueRec)
    (hmono : ∀ o' r' n' s', ∃ t,
      (processIssueRecursively ok fuel o' r' n' (depth + 1) dr v s').1.trace
        = s'.trace ++ t)
    (heq : processIssueRecursively ok (fuel + 1) o r n depth dr v s
      = afterChildren ok o r n depth dr v issue.title
          (runChildren
            (fun o' r' n' s' =>
              processIssueRecursively ok fuel o' r' n' (depth + 1) dr v s')
            subs (childLoopState s o r n depth v issue summary))) :
    ∃ t, (processIssueRecursively ok (fuel + 1) o r n depth dr v s).1.trace
        = s.trace ++ t
      ∧ (fuel + 1 ≠ 0 → ∃ t', t = Call.get o r n :: t') := by
  rw [heq]
  obtain ⟨t2, h2⟩ := runChildren_trace_mono _ hmono subs
    (childLoopState s o r n depth v issue summary)
  obtain ⟨t3, h3⟩ := afterChildren_trace_mono ok o r n depth dr v issue.title
    (runChildren
      (fun o' r' n' s' =>
        processIssueRecursively ok fuel o' r' n' (depth + 1) dr v s')
      subs (childLoopState s o r n depth v issue summary))
  refine ⟨Call.get o r n :: Call.list o r n 100 :: (t2 ++ t3), ?_,
    fun _ => ⟨_, rfl⟩⟩
  rw [h3, h2]
  simp [childLoopState, List.append_assoc]

/-- A run only appends to the call trace, and with positive fuel the first
appended call is the fetch of the run's own reference. -/
lemma processIssue_trace_shape (ok : Octokit) :
    ∀ (fuel : Nat) (o r : String) (n depth : Nat) (dr v : Bool) (s : S),
      ∃ t, (processIssueRecursively ok fuel o r n depth dr v s).1.trace = s.trace ++ t
        ∧ (fuel ≠ 0 → ∃ t', t = Call.get o r n :: t') := by
  intro fuel
  induction fuel with
  | zero =>
    intro o r n depth dr v s
    exact ⟨[], by simp [processIssueRecursively], fun h => absurd rfl h⟩
  | succ fuel ih =>
    intro o r n depth dr v s
    have hmono : ∀ o' r' n' s',
        ∃ t, (processIssueRecursively ok fuel o' r' n' (depth + 1) dr v s').1.trace
          = s'.trace ++ t := by
      intro o' r' n' s'
      obtain ⟨t, h, _⟩ := ih o' r' n' (depth + 1) dr v s'
      exact ⟨t, h⟩
    cases hg : ok.getF s.trace o r n with
    | notFound =>
      exact ⟨[Call.get o r n], by simp [processIssueRecursively, getIssue, hg],
        fun _ => ⟨[], rfl⟩⟩
    | err code =>
      exact ⟨[Call.get o r n], by simp [processIssueRecursively, getIssue, hg],
        fun _ => ⟨[], rfl⟩⟩
    | ok issue =>
      cases hcl : (issue.state == "closed") with
      | true =>
        exact ⟨[Call.get o r n],
          by simp [processIssueRecursively, getIssue, hg, hcl], fun _ => ⟨[], rfl⟩⟩
      | false =>
        cases hsum : issue.sub_issues_summary with
        | none =>
          exact ⟨[Call.get o r n],
            by simp [processIssueRecursively, getIssue, hg, hcl, hsum],
            fun _ => ⟨[], rfl⟩⟩
        | some summary =>
          cases htot : (summary.total == 0) with
          | true =>
            exact ⟨[Call.get o r n],
              by simp [processIssueRecursively, getIssue, hg, hcl, hsum, htot],
              fun _ => ⟨[], rfl⟩⟩
          | false =>
            cases hl : ok.listF (s.trace ++ [Call.get o r n]) o r n 100 with
            | err code =>
              exact ⟨[Call.get o r n, Call.list o r n 100],
                by simp [processIssueRecursively, getIssue, getSubIssues, hg, hcl,
                  hsum, htot, hl],
                fun _ => ⟨[Call.list o r n 100], rfl⟩⟩
            | ok subs =>
              exact processIssue_shape_tail ok fuel o r n depth dr v s issue
                summary subs hmono
                (processIssue_open_eq ok fuel o r n depth dr v s issue summary subs
                  hg hcl hsum htot (Or.inl hl))
            | notFound =>
              exact processIssue_shape_tail ok fuel o r n depth dr v s issue
                summary [] hmono
                (processIssue_open_eq ok fuel o r n depth dr v s issue summary []
                  hg hcl hsum htot (Or.inr ⟨hl, rfl⟩))

/-- The first store call made by a (positive-fuel) child-loop step is the
fetch of the first child, addressed by the owner and repo parsed from that
child's own `repository_url`. -/
lemma childLoopHeadGet (ok : Octokit) (fuel depth : Nat) (dr v : Bool)
    (sub : SubIssueRec) (rest : List SubIssueRec) (s : S) :
    ∃ t, (runChildren
        (fun o r n s' =>
          processIssueRecursively ok (fuel + 1) o r n (depth + 1) dr v s')
        (sub :: rest) s).1.trace
      = s.trace ++ Call.get (subIssueOwner sub.repository_url)
          (subIssueRepo sub.repository_url) sub.number :: t := by
  obtain ⟨t1, h1, hhead⟩ := processIssue_trace_shape ok (fuel + 1)
    (subIssueOwner sub.repository_url) (subIssueRepo sub.repository_url)
    sub.number (depth + 1) dr v s
  obtain ⟨t', rfl⟩ := hhead (Nat.succ_ne_zero fuel)
  have hchild : ∀ o' r' n' s', ∃ t,
      (processIssueRecursively ok (fuel + 1) o' r' n' (depth + 1) dr v s').1.trace
        = s'.trace ++ t := by
    intro o' r' n' s'
    obtain ⟨t, h, _⟩ := processIssue_trace_shape ok (fuel + 1) o' r' n'
      (depth + 1) dr v s'
    exact ⟨t, h⟩
  rcases hres : processIssueRecursively ok (fuel + 1)
      (subIssueOwner sub.repository_url) (subIssueRepo sub.repository_url)
      sub.number (depth + 1) dr v s with ⟨s1, r⟩
  simp only [hres] at h1
  cases r with
  | ok p c =>
    obtain ⟨t2, h2⟩ := runChildren_trace_mono _ hchild rest s1
    rcases hrec : runChildren
        (fun o r n s' =>
          processIssueRecursively ok (fuel + 1) o r n (depth + 1) dr v s')
        rest s1 with ⟨s2, r2⟩
    simp only [hrec] at h2
    cases r2 with
    | ok p2 c2 =>
      exact ⟨t' ++ t2, by simp [runChildren, hres, hrec, h2, h1, List.append_assoc]⟩
    | exc e =>
      exact ⟨t' ++ t2, by simp [runChildren, hres, hrec, h2, h1, List.append_assoc]⟩
    | diverge =>
      exact ⟨t' ++ t2, by simp [runChildren, hres, hrec, h2, h1, List.append_assoc]⟩
  | exc e => exact ⟨t', by simp [runChildren, hres, h1]⟩
  | diverge => exact ⟨t', by simp [runChildren, hres, h1]⟩

/-! ## C2: root with one already-closed child (live mode) -/

/-- Store for the C2 scenario: issue `owner/repo#1` is open with completion
summary `1/1 = 100%`; issue `#2` is closed with no summary; `#1` has the
single child `#2`. -/
def okScenC2 : Octokit where
  getF := fun _ _ _ num =>
    if num == 2 then GetResp.ok ⟨"Child", "closed", none⟩
    else GetResp.ok ⟨"Parent", "open", some ⟨1, 1, 100⟩⟩
  listF := fun _ _ _ num _ =>
    if num == 1 then ListResp.ok [⟨2, "https://api.github.com/repos/owner/repo"⟩]
    else ListResp.ok []

/-- C2 counterexample: in the claimed scenario the live-mode run does **not**
return `{processed: 2, closed: 1}` — the already-closed child contributes 0 to
`processed`, so the root's call returns `processed = 1`. -/
theorem scenOneClosedChild_counterexample :
    (processIssueRecursively okScenC2 2 "owner" "repo" 1 0 false false ⟨[], []⟩).2
      ≠ Res.ok 2 1 := by
  decide

/-- C2 (amended): in live mode the scenario — root open with summary
`1/1 = 100%`, one child that is closed with no summary — returns
`{processed: 1, closed: 1}`, and the full call trace shows `closeItem`
(`update`) and `addNote` (`createComment`) invoked exactly once each, in that
order, on the root and never on the child. -/
theorem scenOneClosedChild :
    processIssueRecursively okScenC2 2 "owner" "repo" 1 0 false false ⟨[], []⟩
      = (⟨[Call.get "owner" "repo" 1, Call.list "owner" "repo" 1 100,
           Call.get "owner" "repo" 2, Call.get "owner" "repo" 1,
           Call.update "owner" "repo" 1 "closed" "completed",
           Call.comment "owner" "repo" 1
             "🤖 Automatically closed: All sub-issues are now complete"],
          [OutEvent.closedQuiet "owner/repo#1" "Parent"]⟩,
         Res.ok 1 1) := by
  decide

/-! ## C8: children live in a different container than the parent -/

/-- Store for the C8 scenario: root `o/r#1` is open with summary
`2/2 = 100%`; its two children `#2`, `#3` live in container
`other/otherrepo` (their `repository_url` says so) and are both closed. -/
def okScenC8 : Octokit where
  getF := fun _ _ _ num =>
    if num == 1 then GetResp.ok ⟨"Root", "open", some ⟨2, 2, 100⟩⟩
    else GetResp.ok ⟨"Child", "closed", none⟩
  listF := fun _ _ _ num _ =>
    if num == 1 then
      ListResp.ok [⟨2, "https://api.github.com/repos/other/otherrepo"⟩,
                   ⟨3, "https://api.github.com/repos/other/otherrepo"⟩]
    else ListResp.ok []

/-- C8 counterexample: the scenario run does **not** return
`{processed: 3, closed: 1}` — both already-closed children contribute 0 to
`processed`, so the result is `{processed: 1, closed: 1}`. -/
theorem scenCrossRepo_counterexample :
    (processIssueRecursively okScenC8 2 "o" "r" 1 0 false false ⟨[], []⟩).2
      ≠ Res.ok 3 1 := by
  decide

/-- C8 (amended): when recursing into children the container of each child is
taken from that child's own record (the first store call a child-loop step
makes is a fetch addressed by the owner/repo parsed from the child's own
`repository_url`, never by the parent's container); in the scenario — root
open with summary `2/2 = 100%`, two closed children living in container
`other/otherrepo` — the store's `getItem` is invoked with the children's own
container, not the root's, and the result is `{processed: 1, closed: 1}`. -/
theorem childContainerFromRecord :
    (∀ (ok : Octokit) (fuel depth : Nat) (dr v : Bool) (sub : SubIssueRec)
        (rest : List SubIssueRec) (s : S),
      ∃ t, (runChildren
          (fun o r n s' =>
            processIssueRecursively ok (fuel + 1) o r n (depth + 1) dr v s')
          (sub :: rest) s).1.trace
        = s.trace ++ Call.get (subIssueOwner sub.repository_url)
            (subIssueRepo sub.repository_url) sub.number :: t)
    ∧ processIssueRecursively okScenC8 2 "o" "r" 1 0 false false ⟨[], []⟩
      = (⟨[Call.get "o" "r" 1, Call.list "o" "r" 1 100,
           Call.get "other" "otherrepo" 2, Call.get "other" "otherrepo" 3,
           Call.get "o" "r" 1,
           Call.update "o" "r" 1 "closed" "completed",
           Call.comment "o" "r" 1
             "🤖 Automatically closed: All sub-issues are now complete"],
          [OutEvent.closedQuiet "o/r#1" "Root"]⟩,
         Res.ok 1 1) := by
  constructor
  · intro ok fuel depth dr v sub rest s
    exact childLoopHeadGet ok fuel depth dr v sub rest s
  · decide

/-! ## C1: the closure decision is made from the re-fetched summary -/

/-- C1: for every open item whose (first-read) summary has `total > 0`, after
the children have been processed (`hkids` names the child-loop outcome), the
propagator re-fetches the item and decides closure from that second read
only: if the re-fetched summary shows `percent_completed = 100` the call's
`closed` count is incremented exactly once whether `previewOnly` (`dr`) is
true or false, and the mutating calls `update` (closeItem) followed by
`createComment` (addNote) are issued, once each in that order, iff `dr` is
false; if the second read is not at 100%, no mutating call is made and the
node contributes 0 to `closed`. -/
theorem closureFromSecondRead (ok : Octokit) (fuel : Nat) (o r : String)
    (n depth : Nat) (dr v : Bool) (s : S) (issue : Issue) (summary : Summary)
    (subs : List SubIssueRec) (s5 : S) (p c : Nat) (updated : Issue)
    (hg : ok.getF s.trace o r n = GetResp.ok issue)
    (hopen : issue.state ≠ "closed")
    (hsum : issue.sub_issues_summary = some summary)
    (htot : summary.total ≠ 0)
    (hl : ok.listF (s.trace ++ [Call.get o r n]) o r n 100 = ListResp.ok subs)
    (hkids : runChildren
        (fun o' r' n' s' =>
          processIssueRecursively ok fuel o' r' n' (depth + 1) dr v s')
        subs (childLoopState s o r n depth v issue summary) = (s5, Res.ok p c))
    (hre : ok.getF s5.trace o r n = GetResp.ok updated) :
    (closeEligible updated = true →
        (processIssueRecursively ok (fuel + 1) o r n depth dr v s).2
          = Res.ok (1 + p) (c + 1)
      ∧ (dr = true →
          (processIssueRecursively ok (fuel + 1) o r n depth dr v s).1.trace
            = s5.trace ++ [Call.get o r n])
      ∧ (dr = false →
          (processIssueRecursively ok (fuel + 1) o r n depth dr v s).1.trace
            = s5.trace ++ [Call.get o r n,
                Call.update o r n "closed" "completed",
                Call.comment o r n
                  ("🤖 Automatically closed: " ++ "All sub-issues are now complete")]))
    ∧ (closeEligible updated = false →
        (processIssueRecursively ok (fuel + 1) o r n depth dr v s).2
          = Res.ok (1 + p) c
      ∧ (processIssueRecursively ok (fuel + 1) o r n depth dr v s).1.trace
          = s5.trace ++ [Call.get o r n]) := by
  have hcl : (issue.state == "closed") = false := by
    simp [hopen]
  have htot' : (summary.total == 0) = false := by
    simp [htot]
  have heq := processIssue_open_eq ok fuel o r n depth dr v s issue summary subs
    hg hcl hsum htot' (Or.inl hl)
  rw [heq, hkids]
  constructor
  · intro helig
    refine ⟨?_, ?_, ?_⟩
    · cases dr <;>
        simp [afterChildren, closeDecision, getIssue, hre, helig, closeIssue]
    · intro hdr
      subst hdr
      simp [afterChildren, closeDecision, getIssue, hre, helig]
    · intro hdr
      subst hdr
      simp [afterChildren, closeDecision, getIssue, hre, helig, closeIssue,
        List.append_assoc]
  · intro helig
    constructor
    · simp [afterChildren, closeDecision, getIssue, hre, helig]
    · simp [afterChildren, closeDecision, getIssue, hre, helig]

/-- Issue used by the C1 witness store. -/
def issueC1W : Issue := ⟨"Root", "open", some ⟨1, 1, 100⟩⟩

/-- Store for the C1 witness: a single open issue at 100% with no children. -/
def okC1W : Octokit where
  getF := fun _ _ _ _ => GetResp.ok issueC1W
  listF := fun _ _ _ _ _ => ListResp.ok []

theorem closureFromSecondRead_witness :
    (processIssueRecursively okC1W 1 "o" "r" 1 0 false false ⟨[], []⟩).2
        = Res.ok 1 1
    ∧ (processIssueRecursively okC1W 1 "o" "r" 1 0 false false ⟨[], []⟩).1.trace
        = (childLoopState ⟨[], []⟩ "o" "r" 1 0 false issueC1W ⟨1, 1, 100⟩).trace
          ++ [Call.get "o" "r" 1, Call.update "o" "r" 1 "closed" "completed",
              Call.comment "o" "r" 1
                ("🤖 Automatically closed: " ++ "All sub-issues are now complete")] := by
  have h := closureFromSecondRead okC1W 0 "o" "r" 1 0 false false ⟨[], []⟩
    issueC1W ⟨1, 1, 100⟩ []
    (childLoopState ⟨[], []⟩ "o" "r" 1 0 false issueC1W ⟨1, 1, 100⟩) 0 0 issueC1W
    rfl (by decide) rfl (by decide) rfl rfl rfl
  obtain ⟨h1, -⟩ := h
  obtain ⟨hres, -, htr⟩ := h1 rfl
  exact ⟨by simpa using hres, by simpa using htr rfl⟩

/-! ## C5: error taxonomy of the propagator's store calls -/

/-- C5: (i) a not-found item fetch raises a descriptive failure naming the
container and id, with no retry (the trace gains only that single fetch);
(ii) any other item-fetch failure propagates unchanged; (iii) a not-found
child listing is treated as the empty child list, not a failure; (iv) any
other child-listing failure propagates and aborts (no child is visited);
(v) a child's exception aborts the child loop immediately — the remaining
siblings are never processed and the state is exactly the failing child's
state (no containment across siblings); (vi) a child-loop exception
propagates unchanged as the result of the whole parent call. -/
theorem errorTaxonomy :
    (∀ (ok : Octokit) (fuel : Nat) (o r : String) (n depth : Nat) (dr v : Bool)
        (s : S),
      ok.getF s.trace o r n = GetResp.notFound →
      processIssueRecursively ok (fuel + 1) o r n depth dr v s
        = (⟨s.trace ++ [Call.get o r n], s.out⟩,
           Res.exc (Exc.msg
             ("Issue #" ++ toString n ++ " not found in " ++ o ++ "/" ++ r))))
    ∧ (∀ (ok : Octokit) (fuel : Nat) (o r : String) (n depth : Nat) (dr v : Bool)
        (s : S) (code : Nat),
      ok.getF s.trace o r n = GetResp.err code →
      processIssueRecursively ok (fuel + 1) o r n depth dr v s
        = (⟨s.trace ++ [Call.get o r n], s.out⟩, Res.exc (Exc.store code)))
    ∧ (∀ (ok : Octokit) (s : S) (o r : String) (n : Nat),
      ok.listF s.trace o r n 100 = ListResp.notFound →
      getSubIssues ok s o r n
        = (⟨s.trace ++ [Call.list o r n 100], s.out⟩, Except.ok []))
    ∧ (∀ (ok : Octokit) (fuel : Nat) (o r : String) (n depth : Nat) (dr v : Bool)
        (s : S) (issue : Issue) (summary : Summary) (code : Nat),
      ok.getF s.trace o r n = GetResp.ok issue →
      issue.state ≠ "closed" →
      issue.sub_issues_summary = some summary →
      summary.total ≠ 0 →
      ok.listF (s.trace ++ [Call.get o r n]) o r n 100 = ListResp.err code →
      (processIssueRecursively ok (fuel + 1) o r n depth dr v s).2
          = Res.exc (Exc.store code)
      ∧ (processIssueRecursively ok (fuel + 1) o r n depth dr v s).1.trace
          = s.trace ++ [Call.get o r n, Call.list o r n 100])
    ∧ (∀ (ok : Octokit) (fuel depth : Nat) (dr v : Bool) (sub : SubIssueRec)
        (rest : List SubIssueRec) (s s1 : S) (e : Exc),
      processIssueRecursively ok fuel (subIssueOwner sub.repository_url)
          (subIssueRepo sub.repository_url) sub.number (depth + 1) dr v s
        = (s1, Res.exc e) →
      runChildren
        (fun o' r' n' s' =>
          processIssueRecursively ok fuel o' r' n' (depth + 1) dr v s')
        (sub :: rest) s = (s1, Res.exc e))
    ∧ (∀ (ok : Octokit) (fuel : Nat) (o r : String) (n depth : Nat) (dr v : Bool)
        (s : S) (issue : Issue) (summary : Summary) (subs : List SubIssueRec)
        (s5 : S) (e : Exc),
      ok.getF s.trace o r n = GetResp.ok issue →
      issue.state ≠ "closed" →
      issue.sub_issues_summary = some summary →
      summary.total ≠ 0 →
      ok.listF (s.trace ++ [Call.get o r n]) o r n 100 = ListResp.ok subs →
      runChildren
        (fun o' r' n' s' =>
          processIssueRecursively ok fuel o' r' n' (depth + 1) dr v s')
        subs (childLoopState s o r n depth v issue summary) = (s5, Res.exc e) →
      processIssueRecursively ok (fuel + 1) o r n depth dr v s
        = (s5, Res.exc e)) := by
  refine ⟨?_, ?_, ?_, ?_, ?_, ?_⟩
  · intro ok fuel o r n depth dr v s h
    simp [processIssueRecursively, getIssue, h]
  · intro ok fuel o r n depth dr v s code h
    simp [processIssueRecursively, getIssue, h]
  · intro ok s o r n h
    simp [getSubIssues, h]
  · intro ok fuel o r n depth dr v s issue summary code hg hopen hsum htot hl
    have hcl : (issue.state == "closed") = false := by simp [hopen]
    have htot' : (summary.total == 0) = false := by simp [htot]
    constructor <;>
      · cases v <;>
          simp [processIssueRecursively, getIssue, getSubIssues, hg, hcl, hsum,
            htot', hl, S.emit, List.append_assoc]
  · intro ok fuel depth dr v sub rest s s1 e h
    simp [runChildren, h]
  · intro ok fuel o r n depth dr v s issue summary subs s5 e hg hopen hsum htot
      hl hkids
    have hcl : (issue.state == "closed") = false := by simp [hopen]
    have htot' : (summary.total == 0) = false := by simp [htot]
    rw [processIssue_open_eq ok fuel o r n depth dr v s issue summary subs
      hg hcl hsum htot' (Or.inl hl), hkids]
    rfl

/-- Store for the C5 witness: every item fetch reports not-found, every
child listing reports not-found. -/
def okNFW : Octokit where
  getF := fun _ _ _ _ => GetResp.notFound
  listF := fun _ _ _ _ _ => ListResp.notFound

theorem errorTaxonomy_witness :
    processIssueRecursively okNFW 3 "owner" "repo" 7 0 false true ⟨[], []⟩
      = (⟨[Call.get "owner" "repo" 7], []⟩,
         Res.exc (Exc.msg
           ("Issue #" ++ toString 7 ++ " not found in " ++ "owner" ++ "/" ++ "repo")))
    ∧ getSubIssues okNFW ⟨[], []⟩ "owner" "repo" 7
      = (⟨[Call.list "owner" "repo" 7 100], []⟩, Except.ok []) :=
  ⟨errorTaxonomy.1 okNFW 2 "owner" "repo" 7 0 false true ⟨[], []⟩ rfl,
   errorTaxonomy.2.2.1 okNFW ⟨[], []⟩ "owner" "repo" 7 rfl⟩

/-! ## Congruence: the call trace and counts do not depend on verbosity or on
the observation channel -/

/-- Congruence of the closure decision under stores agreeing on item fetches
and states agreeing on traces; verbosity may differ. -/
lemma closeDecision_congr (ok₁ ok₂ : Octokit)
    (hg : ∀ t o r n, ok₁.getF t o r n = ok₂.getF t o r n)
    (o r : String) (n depth : Nat) (dr : Bool) (v₁ v₂ : Bool)
    (ref title : String) (p c : Nat) (s₁ s₂ : S) (htr : s₁.trace = s₂.trace) :
    (closeDecision ok₁ o r n depth dr v₁ ref title p c s₁).1.trace
      = (closeDecision ok₂ o r n depth dr v₂ ref title p c s₂).1.trace
    ∧ (closeDecision ok₁ o r n depth dr v₁ ref title p c s₁).2
      = (closeDecision ok₂ o r n depth dr v₂ ref title p c s₂).2 := by
  have hg2 : ok₂.getF s₂.trace o r n = ok₁.getF s₁.trace o r n := by
    rw [htr, hg]
  cases hgr : ok₁.getF s₁.trace o r n with
  | notFound =>
    rw [hgr] at hg2
    have hgr' : ok₁.getF s₂.trace o r n = GetResp.notFound := htr ▸ hgr
    constructor <;> simp [closeDecision, getIssue, hgr, hgr', hg2, htr]
  | err code =>
    rw [hgr] at hg2
    have hgr' : ok₁.getF s₂.trace o r n = GetResp.err code := htr ▸ hgr
    constructor <;> simp [closeDecision, getIssue, hgr, hgr', hg2, htr]
  | ok updated =>
    rw [hgr] at hg2
    have hgr' : ok₁.getF s₂.trace o r n = GetResp.ok updated := htr ▸ hgr
    cases he : closeEligible updated with
    | false =>
      constructor <;> cases v₁ <;> cases v₂ <;>
        simp [closeDecision, getIssue, hgr, hgr', hg2, he, htr]
    | true =>
      cases dr <;> constructor <;> cases v₁ <;> cases v₂ <;>
        simp [closeDecision, getIssue, closeIssue, hgr, hgr', hg2, he, htr]

/-- Congruence of `afterChildren` in the trace and result of its argument. -/
lemma afterChildren_congr (ok₁ ok₂ : Octokit)
    (hg : ∀ t o r n, ok₁.getF t o r n = ok₂.getF t o r n)
    (o r : String) (n depth : Nat) (dr : Bool) (v₁ v₂ : Bool) (title : String)
    (x₁ x₂ : S × Res) (htr : x₁.1.trace = x₂.1.trace) (hres : x₁.2 = x₂.2) :
    (afterChildren ok₁ o r n depth dr v₁ title x₁).1.trace
      = (afterChildren ok₂ o r n depth dr v₂ title x₂).1.trace
    ∧ (afterChildren ok₁ o r n depth dr v₁ title x₁).2
      = (afterChildren ok₂ o r n depth dr v₂ title x₂).2 := by
  rcases x₁ with ⟨s₁, r₁⟩
  rcases x₂ with ⟨s₂, r₂⟩
  simp only at htr hres
  subst hres
  cases r₁ with
  | ok p c =>
    simpa [afterChildren] using
      closeDecision_congr ok₁ ok₂ hg o r n depth dr v₁ v₂
        (o ++ "/" ++ r ++ "#" ++ toString n) title p c s₁ s₂ htr
  | exc e => exact ⟨by simpa [afterChildren] using htr, by simp [afterChildren]⟩
  | diverge => exact ⟨by simpa [afterChildren] using htr, by simp [afterChildren]⟩

/-- Congruence of the child loop under pointwise congruence of the child
runs. -/
lemma runChildren_congr (child₁ child₂ : String → String → Nat → S → S × Res)
    (hc : ∀ o r n s₁ s₂, s₁.trace = s₂.trace →
      (child₁ o r n s₁).1.trace = (child₂ o r n s₂).1.trace
      ∧ (child₁ o r n s₁).2 = (child₂ o r n s₂).2) :
    ∀ (subs : List SubIssueRec) (s₁ s₂ : S), s₁.trace = s₂.trace →
      (runChildren child₁ subs s₁).1.trace = (runChildren child₂ subs s₂).1.trace
      ∧ (runChildren child₁ subs s₁).2 = (runChildren child₂ subs s₂).2 := by
  intro subs
  induction subs with
  | nil =>
    intro s₁ s₂ h
    exact ⟨by simpa [runChildren] using h, by simp [runChildren]⟩
  | cons sub rest ih =>
    intro s₁ s₂ h
    obtain ⟨ht, hr⟩ := hc (subIssueOwner sub.repository_url)
      (subIssueRepo sub.repository_url) sub.number s₁ s₂ h
    rcases h₁ : child₁ (subIssueOwner sub.repository_url)
        (subIssueRepo sub.repository_url) sub.number s₁ with ⟨t₁, r₁⟩
    rcases h₂ : child₂ (subIssueOwner sub.repository_url)
        (subIssueRepo sub.repository_url) sub.number s₂ with ⟨t₂, r₂⟩
    simp only [h₁, h₂] at ht hr
    subst hr
    cases r₁ with
    | ok p c =>
      obtain ⟨ht', hr'⟩ := ih t₁ t₂ ht
      rcases hr₁ : runChildren child₁ rest t₁ with ⟨u₁, q₁⟩
      rcases hr₂ : runChildren child₂ rest t₂ with ⟨u₂, q₂⟩
      simp only [hr₁, hr₂] at ht' hr'
      subst hr'
      cases q₁ with
      | ok p2 c2 => constructor <;> simp [runChildren, h₁, h₂, hr₁, hr₂, ht']
      | exc e => constructor <;> simp [runChildren, h₁, h₂, hr₁, hr₂, ht']
      | diverge => constructor <;> simp [runChildren, h₁, h₂, hr₁, hr₂, ht']
    | exc e => constructor <;> simp [runChildren, h₁, h₂, ht]
    | diverge => constructor <;> simp [runChildren, h₁, h₂, ht]

/-- Master congruence: two runs on stores that agree on item fetches and on
page-100 child listings, from states with the same call trace, with any two
verbosity flags, produce the same call trace and the same result. -/
lemma processIssue_congr (ok₁ ok₂ : Octokit)
    (hg : ∀ t o r n, ok₁.getF t o r n = ok₂.getF t o r n)
    (hl : ∀ t o r n, ok₁.listF t o r n 100 = ok₂.listF t o r n 100) :
    ∀ (fuel : Nat) (o r : String) (n depth : Nat) (dr : Bool) (v₁ v₂ : Bool)
      (s₁ s₂ : S), s₁.trace = s₂.trace →
      (processIssueRecursively ok₁ fuel o r n depth dr v₁ s₁).1.trace
        = (processIssueRecursively ok₂ fuel o r n depth dr v₂ s₂).1.trace
      ∧ (processIssueRecursively ok₁ fuel o r n depth dr v₁ s₁).2
        = (processIssueRecursively ok₂ fuel o r n depth dr v₂ s₂).2 := by
  intro fuel
  induction fuel with
  | zero =>
    intro o r n depth dr v₁ v₂ s₁ s₂ h
    exact ⟨by simpa [processIssueRecursively] using h,
      by simp [processIssueRecursively]⟩
  | succ fuel ih =>
    intro o r n depth dr v₁ v₂ s₁ s₂ htr
    have hg2 : ok₂.getF s₂.trace o r n = ok₁.getF s₁.trace o r n := by
      rw [htr, hg]
    cases hgr : ok₁.getF s₁.trace o r n with
    | notFound =>
      rw [hgr] at hg2
      have hgr' : ok₁.getF s₂.trace o r n = GetResp.notFound := htr ▸ hgr
      constructor <;> simp [processIssueRecursively, getIssue, hgr, hgr', hg2, htr]
    | err code =>
      rw [hgr] at hg2
      have hgr' : ok₁.getF s₂.trace o r n = GetResp.err code := htr ▸ hgr
      constructor <;> simp [processIssueRecursively, getIssue, hgr, hgr', hg2, htr]
    | ok issue =>
      rw [hgr] at hg2
      have hgr' : ok₁.getF s₂.trace o r n = GetResp.ok issue := htr ▸ hgr
      cases hcl : (issue.state == "closed") with
      | true =>
        constructor <;> cases v₁ <;> cases v₂ <;>
          simp [processIssueRecursively, getIssue, hgr, hgr', hg2, hcl, htr]
      | false =>
        cases hsum : issue.sub_issues_summary with
        | none =>
          constructor <;> cases v₁ <;> cases v₂ <;>
            simp [processIssueRecursively, getIssue, hgr, hgr', hg2, hcl, hsum, htr]
        | some summary =>
          cases htot : (summary.total == 0) with
          | true =>
            constructor <;> cases v₁ <;> cases v₂ <;>
              simp [processIssueRecursively, getIssue, hgr, hgr', hg2, hcl, hsum,
                htot, htr]
          | false =>
            have hl2 : ok₂.listF (s₂.trace ++ [Call.get o r n]) o r n 100
                = ok₁.listF (s₁.trace ++ [Call.get o r n]) o r n 100 := by
              rw [htr, hl]
            have hchild : ∀ o' r' n' t₁ t₂, t₁.trace = t₂.trace →
                ((fun o' r' n' s' =>
                    processIssueRecursively ok₁ fuel o' r' n' (depth + 1) dr v₁ s')
                  o' r' n' t₁).1.trace
                  = ((fun o' r' n' s' =>
                      processIssueRecursively ok₂ fuel o' r' n' (depth + 1) dr v₂ s')
                    o' r' n' t₂).1.trace
                ∧ ((fun o' r' n' s' =>
                    processIssueRecursively ok₁ fuel o' r' n' (depth + 1) dr v₁ s')
                  o' r' n' t₁).2
                  = ((fun o' r' n' s' =>
                      processIssueRecursively ok₂ fuel o' r' n' (depth + 1) dr v₂ s')
                    o' r' n' t₂).2 :=
              fun o' r' n' t₁ t₂ h' => ih o' r' n' (depth + 1) dr v₁ v₂ t₁ t₂ h'
            cases hls : ok₁.listF (s₁.trace ++ [Call.get o r n]) o r n 100 with
            | err code =>
              rw [hls] at hl2
              have hls' : ok₁.listF (s₂.trace ++ [Call.get o r n]) o r n 100
                  = ListResp.err code := htr ▸ hls
              constructor <;> cases v₁ <;> cases v₂ <;>
                simp [processIssueRecursively, getIssue, getSubIssues, hgr, hgr',
                  hg2, hcl, hsum, htot, hls, hls', hl2, htr, S.emit,
                  List.append_assoc]
            | ok subs =>
              rw [hls] at hl2
              rw [processIssue_open_eq ok₁ fuel o r n depth dr v₁ s₁ issue summary
                  subs hgr hcl hsum htot (Or.inl hls),
                processIssue_open_eq ok₂ fuel o r n depth dr v₂ s₂ issue summary
                  subs hg2 hcl hsum htot (Or.inl hl2)]
              have hmid : (childLoopState s₁ o r n depth v₁ issue summary).trace
                  = (childLoopState s₂ o r n depth v₂ issue summary).trace := by
                simp [childLoopState, htr]
              obtain ⟨ht', hr'⟩ := runChildren_congr _ _ hchild subs _ _ hmid
              exact afterChildren_congr ok₁ ok₂ hg o r n depth dr v₁ v₂
                issue.title _ _ ht' hr'
            | notFound =>
              rw [hls] at hl2
              rw [processIssue_open_eq ok₁ fuel o r n depth dr v₁ s₁ issue summary
                  [] hgr hcl hsum htot (Or.inr ⟨hls, rfl⟩),
                processIssue_open_eq ok₂ fuel o r n depth dr v₂ s₂ issue summary
                  [] hg2 hcl hsum htot (Or.inr ⟨hl2, rfl⟩)]
              have hmid : (childLoopState s₁ o r n depth v₁ issue summary).trace
                  = (childLoopState s₂ o r n depth v₂ issue summary).trace := by
                simp [childLoopState, htr]
              obtain ⟨ht', hr'⟩ := runChildren_congr _ _ hchild [] _ _ hmid
              exact afterChildren_congr ok₁ ok₂ hg o r n depth dr v₁ v₂
                issue.title _ _ ht' hr'

/-! ## C9: verbosity affects only the observation channel -/

/-- C9: two runs on the same store, reference, depth and dry-run flag,
differing only in the verbose flag, issue the same sequence of store calls
(fetches and mutations alike) and return the same result; the flag can only
change what is written to the observation channel. -/
theorem verboseOnlyObservation (ok : Octokit) (fuel : Nat) (o r : String)
    (n depth : Nat) (dr : Bool) (s : S) :
    (processIssueRecursively ok fuel o r n depth dr true s).1.trace
      = (processIssueRecursively ok fuel o r n depth dr false s).1.trace
    ∧ (processIssueRecursively ok fuel o r n depth dr true s).2
      = (processIssueRecursively ok fuel o r n depth dr false s).2 :=
  processIssue_congr ok ok (fun _ _ _ _ => rfl) (fun _ _ _ _ => rfl)
    fuel o r n depth dr true false s s rfl

/-! ## C10: a single child-listing request with page size 100 -/

/-- Modelled from the API contract `getSubIssues` relies on: a store whose
child-listing endpoint returns, for a request with a given `per_page`, the
first `per_page` entries of the underlying full child list `full`. -/
def pagedOracle (g : List Call → String → String → Nat → GetResp)
    (full : List Call → String → String → Nat → List SubIssueRec) : Octokit where
  getF := g
  listF := fun t o r n pp => ListResp.ok ((full t o r n).take pp)

/-- C10: the child-listing fetch is issued as exactly one request with
`per_page = 100` and no pagination follow-up (the trace gains precisely one
`list` call carrying page size 100); consequently, against a store that
honours the page size, the traversal's calls and counts depend only on the
first 100 children of each node — two stores whose full child lists agree on
their first 100 entries (and agree on item fetches) produce the same call
trace and the same result, so children beyond the first 100 are never fetched
and contribute nothing to `processed`, `closed`, or closure decisions. -/
theorem singleListPage100 :
    (∀ (ok : Octokit) (s : S) (o r : String) (n : Nat),
      (getSubIssues ok s o r n).1.trace = s.trace ++ [Call.list o r n 100]
      ∧ (getSubIssues ok s o r n).1.out = s.out)
    ∧ (∀ (g : List Call → String → String → Nat → GetResp)
        (full full' : List Call → String → String → Nat → List SubIssueRec),
      (∀ t o r n, List.take 100 (full t o r n) = List.take 100 (full' t o r n)) →
      ∀ (fuel : Nat) (o r : String) (n depth : Nat) (dr v : Bool) (s : S),
        (processIssueRecursively (pagedOracle g full) fuel o r n depth dr v s).1.trace
          = (processIssueRecursively (pagedOracle g full') fuel o r n depth dr v s).1.trace
        ∧ (processIssueRecursively (pagedOracle g full) fuel o r n depth dr v s).2
          = (processIssueRecursively (pagedOracle g full') fuel o r n depth dr v s).2) := by
  constructor
  · intro ok s o r n
    constructor <;> cases h : ok.listF s.trace o r n 100 <;> simp [getSubIssues, h]
  · intro g full full' h100 fuel o r n depth dr v s
    exact processIssue_congr (pagedOracle g full) (pagedOracle g full')
      (fun _ _ _ _ => rfl)
      (fun t o' r' n' => by simp [pagedOracle, h100 t o' r' n'])
      fuel o r n depth dr v v s s rfl

/-- A child record used by the C10 witness. -/
def subC10W : SubIssueRec := ⟨9, "https://api.github.com/repos/x/y"⟩

/-- Item-fetch oracle for the C10 witness. -/
def gC10W : List Call → String → String → Nat → GetResp :=
  fun _ _ _ _ => GetResp.ok ⟨"Node", "open", some ⟨150, 150, 100⟩⟩

theorem singleListPage100_witness :
    (processIssueRecursively
        (pagedOracle gC10W (fun _ _ _ _ => List.replicate 150 subC10W))
        1 "o" "r" 1 0 true false ⟨[], []⟩).1.trace
      = (processIssueRecursively
          (pagedOracle gC10W (fun _ _ _ _ => List.replicate 100 subC10W))
          1 "o" "r" 1 0 true false ⟨[], []⟩).1.trace
    ∧ (processIssueRecursively
        (pagedOracle gC10W (fun _ _ _ _ => List.replicate 150 subC10W))
        1 "o" "r" 1 0 true false ⟨[], []⟩).2
      = (processIssueRecursively
          (pagedOracle gC10W (fun _ _ _ _ => List.replicate 100 subC10W))
          1 "o" "r" 1 0 true false ⟨[], []⟩).2 :=
  singleListPage100.2 gC10W (fun _ _ _ _ => List.replicate 150 subC10W)
    (fun _ _ _ _ => List.replicate 100 subC10W)
    (fun _ _ _ _ => by simp [List.take_replicate])
    1 "o" "r" 1 0 true false ⟨[], []⟩

/-! ## Resolver lemmas -/

lemma breakAt_append (c : Char) (a b : List Char) (ha : c ∉ a) :
    breakAt c (a ++ c :: b) = some (a, b) := by
  induction a with
  | nil => simp [breakAt]
  | cons x xs ih =>
    have hx : ¬(x = c) := fun h => ha (h ▸ List.mem_cons_self x xs)
    have ha' : c ∉ xs := fun h => ha (List.mem_cons_of_mem x h)
    simp [breakAt, hx, ih ha']

lemma breakAt_sound (c : Char) : ∀ (l a b : List Char),
    breakAt c l = some (a, b) → l = a ++ c :: b ∧ c ∉ a := by
  intro l
  induction l with
  | nil => intro a b h; simp [breakAt] at h
  | cons x xs ih =>
    intro a b h
    by_cases hx : x = c
    · subst hx
      simp [breakAt] at h
      obtain ⟨rfl, rfl⟩ := h
      simp
    · simp only [breakAt, if_neg hx] at h
      cases hrec : breakAt c xs with
      | none => rw [hrec] at h; simp at h
      | some pr =>
        obtain ⟨a', b'⟩ := pr
        rw [hrec] at h
        simp at h
        obtain ⟨rfl, rfl⟩ := h
        obtain ⟨heq, hmem⟩ := ih a' b' hrec
        refine ⟨by rw [heq]; simp, ?_⟩
        intro hin
        rcases List.mem_cons.mp hin with h1 | h2
        · exact hx h1.symm
        · exact hmem h2

lemma stripLit_self (p : List Char) : ∀ cs, stripLit p (p ++ cs) = some cs := by
  induction p with
  | nil => intro cs; simp [stripLit]
  | cons x xs ih => intro cs; simp [stripLit, ih]

lemma stripLit_sound : ∀ (p cs rest : List Char),
    stripLit p cs = some rest → cs = p ++ rest := by
  intro p
  induction p with
  | nil =>
    intro cs rest h
    simp only [stripLit, Option.some_inj] at h
    simp [h]
  | cons x xs ih =>
    intro cs rest h
    cases cs with
    | nil => simp [stripLit] at h
    | cons y ys =>
      by_cases hy : y = x
      · subst hy
        simp only [stripLit, if_pos rfl] at h
        rw [List.cons_append, ← ih ys rest h]
      · simp [stripLit, hy] at h

lemma takeWhile_append_cons (p : Char → Bool) (xs : List Char) (y : Char)
    (ys : List Char) (hxs : ∀ x ∈ xs, p x) (hy : p y = false) :
    (xs ++ y :: ys).takeWhile p = xs ∧ (xs ++ y :: ys).dropWhile p = y :: ys := by
  induction xs with
  | nil => simp [List.takeWhile_cons, List.dropWhile_cons, hy]
  | cons x xs ih =>
    have hx : p x = true := hxs x (List.mem_cons_self x xs)
    have hxs' : ∀ z ∈ xs, p z = true := fun z hz => hxs z (List.mem_cons_of_mem x hz)
    obtain ⟨h1, h2⟩ := ih hxs'
    constructor
    · simp [List.takeWhile_cons, hx, h1]
    · simp [List.dropWhile_cons, hx, h2]

lemma takeWhile_all_eq (p : Char → Bool) : ∀ (l : List Char),
    (∀ x ∈ l, p x) → l.takeWhile p = l := by
  intro l
  induction l with
  | nil => intro _; rfl
  | cons x xs ih =>
    intro h
    have hx : p x = true := h x (List.mem_cons_self x xs)
    simp [List.takeWhile_cons, hx, ih (fun z hz => h z (List.mem_cons_of_mem x hz))]

lemma dropWhile_head_false (p : Char → Bool) : ∀ (l : List Char) (x : Char)
    (xs : List Char), l.dropWhile p = x :: xs → p x = false := by
  intro l
  induction l with
  | nil => intro x xs h; simp [List.dropWhile] at h
  | cons y ys ih =>
    intro x xs h
    by_cases hp : p y = true
    · rw [List.dropWhile_cons, if_pos hp] at h
      exact ih x xs h
    · rw [List.dropWhile_cons, if_neg hp] at h
      injection h with h1 h2
      subst h1
      simpa using hp

lemma breakAt_cons_ne (c x : Char) (l : List Char) (h : x ≠ c) :
    breakAt c (x :: l) = (breakAt c l).map (fun pr => (x :: pr.1, pr.2)) := by
  simp only [breakAt, if_neg h]
  cases breakAt c l with
  | none => rfl
  | some pr => cases pr; rfl

lemma breakAt_append_not_mem (c : Char) (xs l : List Char) (h : c ∉ xs) :
    breakAt c (xs ++ l) = (breakAt c l).map (fun pr => (xs ++ pr.1, pr.2)) := by
  induction xs with
  | nil =>
    simp only [List.nil_append]
    cases breakAt c l with
    | none => rfl
    | some pr => cases pr; rfl
  | cons x xs ih =>
    have hx : x ≠ c := fun he => h (he ▸ List.mem_cons_self x xs)
    have h' : c ∉ xs := fun hm => h (List.mem_cons_of_mem _ hm)
    rw [List.cons_append, breakAt_cons_ne c x _ hx, ih h']
    cases breakAt c l with
    | none => rfl
    | some pr => cases pr; rfl

/-- A list that ends, after its last `'/'`, in digits only, cannot be split
as `X ++ '#' :: cd` with `cd` all digits: the digits after the first `'#'`
would have to reach across that `'/'`. -/
lemma no_digit_tail (L M ds X cd : List Char)
    (hL1 : L = X ++ '#' :: cd)
    (hL2 : L = M ++ '/' :: ds)
    (hdsD : ∀ ch ∈ ds, ch.isDigit)
    (hcdD : ∀ ch ∈ cd, ch.isDigit) : False := by
  have hcdH : '#' ∉ cd.reverse := by
    intro hm
    exact absurd (hcdD '#' (List.mem_reverse.mp hm)) (by decide)
  have hdsH : '#' ∉ ds.reverse := by
    intro hm
    exact absurd (hdsD '#' (List.mem_reverse.mp hm)) (by decide)
  have h1 : breakAt '#' L.reverse = some (cd.reverse, X.reverse) := by
    rw [hL1]
    have hrev : (X ++ '#' :: cd).reverse = cd.reverse ++ '#' :: X.reverse := by
      simp [List.reverse_append]
    rw [hrev]
    exact breakAt_append '#' _ _ hcdH
  have h2 : L.reverse = ds.reverse ++ '/' :: M.reverse := by
    rw [hL2]; simp [List.reverse_append]
  rw [h2, breakAt_append_not_mem '#' _ _ hdsH,
    breakAt_cons_ne '#' '/' _ (by decide)] at h1
  cases hb : breakAt '#' M.reverse with
  | none => rw [hb] at h1; simp at h1
  | some pr =>
    obtain ⟨m1, m2⟩ := pr
    rw [hb] at h1
    simp at h1
    have hmem : '/' ∈ cd.reverse := by
      rw [← h1.1]
      simp
    exact absurd (hcdD '/' (List.mem_reverse.mp hmem)) (by decide)

/-- Soundness of the short pattern: a match exhibits the compact
decomposition of the input. -/
lemma shortMatch_sound (s : String) (r : ParsedIssue) (h : shortMatch s = some r) :
    ∃ ns name ds : List Char,
      s.data = ns ++ '/' :: (name ++ '#' :: ds)
      ∧ ns ≠ [] ∧ '/' ∉ ns ∧ name ≠ [] ∧ '#' ∉ name
      ∧ ds ≠ [] ∧ ∀ ch ∈ ds, ch.isDigit := by
  unfold shortMatch at h
  cases hb1 : breakAt '/' s.data with
  | none => rw [hb1] at h; simp at h
  | some pr1 =>
    obtain ⟨a, rest⟩ := pr1
    rw [hb1] at h
    dsimp only at h
    by_cases ha : a = []
    · rw [if_pos ha] at h; simp at h
    · rw [if_neg ha] at h
      cases hb2 : breakAt '#' rest with
      | none => rw [hb2] at h; simp at h
      | some pr2 =>
        obtain ⟨b, cd⟩ := pr2
        rw [hb2] at h
        dsimp only at h
        by_cases hbe : b = []
        · rw [if_pos hbe] at h; simp at h
        · rw [if_neg hbe] at h
          by_cases hcond : cd ≠ [] ∧ cd.all Char.isDigit
          · obtain ⟨he1, hmem1⟩ := breakAt_sound '/' s.data a rest hb1
            obtain ⟨he2, hmem2⟩ := breakAt_sound '#' rest b cd hb2
            exact ⟨a, b, cd, by rw [he1, he2], ha, hmem1, hbe, hmem2, hcond.1,
              List.all_eq_true.mp hcond.2⟩
          · rw [if_neg hcond] at h; simp at h

/-- The short pattern never matches a string that ends, after a `'/'`, in a
digits-only run: the digits required after `'#'` cannot absorb that slash. -/
lemma shortMatch_none_digit_tail (s : String) (M ds : List Char)
    (hs : s.data = M ++ '/' :: ds) (hdsD : ∀ ch ∈ ds, ch.isDigit) :
    shortMatch s = none := by
  cases hm : shortMatch s with
  | none => rfl
  | some r =>
    obtain ⟨ns, name, cd, heq, -, -, -, -, -, hcdD⟩ := shortMatch_sound s r hm
    exact absurd (no_digit_tail s.data M ds (ns ++ '/' :: name) cd
      (by rw [heq]; simp) hs hdsD hcdD) not_false

/-- One-step unfolding of the leftmost-match search. -/
lemma urlSearch_cons (c : Char) (cs : List Char) :
    urlSearch (c :: cs)
      = match urlMatchAt (c :: cs) with
        | some p => some p
        | none => urlSearch cs := rfl

/-- The URL pattern cannot match at a position that does not start with the
literal's first character. -/
lemma urlMatchAt_ne_g (c : Char) (cs : List Char) (h : c ≠ 'g') :
    urlMatchAt (c :: cs) = none := by
  have hd : "github.com/".data = 'g' :: "ithub.com/".data := rfl
  unfold urlMatchAt
  rw [hd]
  simp [stripLit, h]

lemma urlSearch_skip_ne_g (c : Char) (cs : List Char) (h : c ≠ 'g') :
    urlSearch (c :: cs) = urlSearch cs := by
  rw [urlSearch_cons, urlMatchAt_ne_g c cs h]

/-- The URL pattern matches at the start of a well-shaped address suffix and
extracts the owner, repo, and number. -/
lemma urlMatchAt_hit (ns name ds : List Char)
    (hns : ns ≠ []) (hnsS : '/' ∉ ns)
    (hname : name ≠ []) (hnameS : '/' ∉ name)
    (hds : ds ≠ []) (hdsD : ∀ ch ∈ ds, ch.isDigit) :
    urlMatchAt ("github.com/".data
        ++ (ns ++ ('/' :: (name ++ ("/issues/".data ++ ds)))))
      = some ⟨String.mk ns, String.mk name, parseIntDec ds⟩ := by
  have hns' : ∀ x ∈ ns, (fun c => decide ¬(c = '/')) x = true := fun x hx => by
    have hne : x ≠ '/' := fun he => hnsS (he ▸ hx)
    simpa using hne
  have hname' : ∀ x ∈ name, (fun c => decide ¬(c = '/')) x = true := fun x hx => by
    have hne : x ≠ '/' := fun he => hnameS (he ▸ hx)
    simpa using hne
  obtain ⟨ht1, hd1⟩ := takeWhile_append_cons (fun c => decide ¬(c = '/')) ns '/'
    (name ++ ("/issues/".data ++ ds)) hns' (by simp)
  obtain ⟨ht2, hd2⟩ := takeWhile_append_cons (fun c => decide ¬(c = '/')) name '/'
    ("issues/".data ++ ds) hname' (by simp)
  have hall := takeWhile_all_eq Char.isDigit ds hdsD
  simp only [decide_not, List.cons_append, List.nil_append] at ht1 hd1 ht2 hd2
  unfold urlMatchAt
  rw [stripLit_self "github.com/".data
    (ns ++ ('/' :: (name ++ ("/issues/".data ++ ds))))]
  simp [ht1, hd1, ht2, hd2, hns, hname, hds, hall, stripLit]

/-- The leftmost search succeeds on a well-shaped address suffix. -/
lemma urlSearch_hit (ns name ds : List Char)
    (hns : ns ≠ []) (hnsS : '/' ∉ ns)
    (hname : name ≠ []) (hnameS : '/' ∉ name)
    (hds : ds ≠ []) (hdsD : ∀ ch ∈ ds, ch.isDigit) :
    urlSearch ("github.com/".data
        ++ (ns ++ ('/' :: (name ++ ("/issues/".data ++ ds)))))
      = some ⟨String.mk ns, String.mk name, parseIntDec ds⟩ := by
  have hform : "github.com/".data
        ++ (ns ++ ('/' :: (name ++ ("/issues/".data ++ ds))))
      = 'g' :: ("ithub.com/".data
        ++ (ns ++ ('/' :: (name ++ ("/issues/".data ++ ds))))) := rfl
  rw [hform, urlSearch_cons, ← hform,
    urlMatchAt_hit ns name ds hns hnsS hname hnameS hds hdsD]

lemma takeWhile_not_slash_not_mem (l : List Char) :
    '/' ∉ l.takeWhile (fun c => decide ¬(c = '/')) := by
  intro hm
  have := List.mem_takeWhile_imp hm
  simp at this

/-- Soundness of one match attempt: success exhibits the address
decomposition of the suffix. -/
lemma urlMatchAt_sound (cs : List Char) (r : ParsedIssue)
    (h : urlMatchAt cs = some r) :
    ∃ ns name ds post : List Char,
      cs = "github.com/".data
        ++ (ns ++ ('/' :: (name ++ ("/issues/".data ++ (ds ++ post)))))
      ∧ ns ≠ [] ∧ '/' ∉ ns ∧ name ≠ [] ∧ '/' ∉ name
      ∧ ds ≠ [] ∧ ∀ ch ∈ ds, ch.isDigit := by
  unfold urlMatchAt at h
  cases h0 : stripLit "github.com/".data cs with
  | none => rw [h0] at h; simp at h
  | some r0 =>
    rw [h0] at h
    dsimp only at h
    by_cases how : r0.takeWhile (fun c => decide ¬(c = '/')) = []
    · rw [if_pos how] at h; simp at h
    · rw [if_neg how] at h
      cases hdw : r0.dropWhile (fun c => decide ¬(c = '/')) with
      | nil => rw [hdw] at h; simp at h
      | cons x r2 =>
        have hx : x = '/' := by
          simpa using dropWhile_head_false _ r0 x r2 hdw
        subst hx
        rw [hdw] at h
        simp only at h
        by_cases hrp : r2.takeWhile (fun c => decide ¬(c = '/')) = []
        · rw [if_pos hrp] at h; simp at h
        · rw [if_neg hrp] at h
          cases h4 : stripLit "/issues/".data
              (r2.dropWhile (fun c => decide ¬(c = '/'))) with
          | none => rw [h4] at h; simp at h
          | some r4 =>
            rw [h4] at h
            dsimp only at h
            by_cases hds : r4.takeWhile Char.isDigit = []
            · rw [if_pos hds] at h; simp at h
            · rw [if_neg hds] at h
              have e0 : cs = "github.com/".data ++ r0 := stripLit_sound _ _ _ h0
              have e1 : r0.takeWhile (fun c => decide ¬(c = '/')) ++ '/' :: r2
                  = r0 := by
                rw [← hdw]
                exact List.takeWhile_append_dropWhile _ _
              have e2 : r2.takeWhile (fun c => decide ¬(c = '/'))
                    ++ r2.dropWhile (fun c => decide ¬(c = '/')) = r2 :=
                List.takeWhile_append_dropWhile _ _
              have e3 : r2.dropWhile (fun c => decide ¬(c = '/'))
                  = "/issues/".data ++ r4 := stripLit_sound _ _ _ h4
              have e4 : r4.takeWhile Char.isDigit ++ r4.dropWhile Char.isDigit
                  = r4 := List.takeWhile_append_dropWhile _ _
              refine ⟨r0.takeWhile (fun c => decide ¬(c = '/')),
                r2.takeWhile (fun c => decide ¬(c = '/')),
                r4.takeWhile Char.isDigit, r4.dropWhile Char.isDigit,
                ?_, how, takeWhile_not_slash_not_mem r0, hrp,
                takeWhile_not_slash_not_mem r2, hds,
                fun ch hm => List.mem_takeWhile_imp hm⟩
              rw [e4, ← e3, e2, e1]
              exact e0

/-- Soundness of the leftmost search: success happens at some split of the
input. -/
lemma urlSearch_sound : ∀ (l : List Char) (r : ParsedIssue),
    urlSearch l = some r →
    ∃ pre rest, l = pre ++ rest ∧ urlMatchAt rest = some r := by
  intro l
  induction l with
  | nil => intro r h; simp [urlSearch] at h
  | cons c cs ih =>
    intro r h
    rw [urlSearch_cons] at h
    cases hat : urlMatchAt (c :: cs) with
    | some p =>
      rw [hat] at h
      dsimp only at h
      exact ⟨[], c :: cs, by simp, by rw [hat, h]⟩
    | none =>
      rw [hat] at h
      dsimp only at h
      obtain ⟨pre, rest, he, hm⟩ := ih r h
      exact ⟨c :: pre, rest, by rw [List.cons_append, ← he], hm⟩

/-- Modelled from the spec: the compact reference pattern
`<namespace>/<name>#<id>` — namespace non-empty with no slash, name non-empty
with no hash (it may contain further slashes), id one or more decimal
digits. -/
def compactPattern (s : String) : Prop :=
  ∃ ns name ds : List Char,
    s.data = ns ++ ('/' :: (name ++ ('#' :: ds)))
    ∧ ns ≠ [] ∧ '/' ∉ ns ∧ name ≠ [] ∧ '#' ∉ name
    ∧ ds ≠ [] ∧ ∀ ch ∈ ds, ch.isDigit

/-- Modelled from the spec: the web-address pattern — a path segment
`/<namespace>/<name>/issues/<id>` following the service host, matched
anywhere within the string (arbitrary text before the host and after the
digits). -/
def urlPattern (s : String) : Prop :=
  ∃ pre ns name ds post : List Char,
    s.data = pre ++ ("github.com/".data
      ++ (ns ++ ('/' :: (name ++ ("/issues/".data ++ (ds ++ post))))))
    ∧ ns ≠ [] ∧ '/' ∉ ns ∧ name ≠ [] ∧ '/' ∉ name
    ∧ ds ≠ [] ∧ ∀ ch ∈ ds, ch.isDigit

/-! ## C6: the compact form resolves; unmatched strings resolve to null -/

/-- C6: every well-formed compact reference `ns/name#n` — namespace and name
non-empty, namespace without slash or hash, name without hash, id a run of
decimal digits (including `0`) — resolves to the triple with the id produced
as the number the digits denote; and every string matching neither the
compact pattern nor the web-address pattern resolves to `none` (the JS
`null`), not an exception — the embedding is total, so no other outcome
exists. -/
theorem resolveCompactRefs :
    (∀ ns name ds : List Char,
      ns ≠ [] → '/' ∉ ns → '#' ∉ ns → name ≠ [] → '#' ∉ name →
      ds ≠ [] → (∀ ch ∈ ds, ch.isDigit) →
      parseIssueInput (String.mk (ns ++ ('/' :: (name ++ ('#' :: ds)))))
        = some ⟨String.mk ns, String.mk name, parseIntDec ds⟩)
    ∧ (∀ s : String, ¬ compactPattern s → ¬ urlPattern s →
        parseIssueInput s = none) := by
  constructor
  · intro ns name ds hns hnsS hnsH hname hnameH hds hdsD
    unfold parseIssueInput shortMatch
    rw [show (String.mk (ns ++ ('/' :: (name ++ ('#' :: ds))))).data
        = ns ++ ('/' :: (name ++ ('#' :: ds))) from rfl,
      breakAt_append '/' ns (name ++ ('#' :: ds)) hnsS]
    dsimp only
    rw [if_neg hns, breakAt_append '#' name ds hnameH]
    dsimp only
    rw [if_neg hname, if_pos ⟨hds, List.all_eq_true.mpr hdsD⟩]
  · intro s hc hu
    cases hp : parseIssueInput s with
    | none => rfl
    | some r =>
      unfold parseIssueInput at hp
      cases hsm : shortMatch s with
      | some p =>
        obtain ⟨ns, name, ds, hh⟩ := shortMatch_sound s p hsm
        exact absurd ⟨ns, name, ds, hh⟩ hc
      | none =>
        rw [hsm] at hp
        dsimp only at hp
        obtain ⟨pre, rest, heq, hm⟩ := urlSearch_sound s.data r hp
        obtain ⟨ns, name, ds, post, h1, h2, h3, h4, h5, h6, h7⟩ :=
          urlMatchAt_sound rest r hm
        exact absurd ⟨pre, ns, name, ds, post, by rw [heq, h1], h2, h3, h4,
          h5, h6, h7⟩ hu

theorem resolveCompactRefs_witness :
    parseIssueInput (String.mk (['o', 'w', 'n', 'e', 'r']
        ++ ('/' :: (['r', 'e', 'p', 'o'] ++ ('#' :: ['0'])))))
      = some ⟨String.mk ['o', 'w', 'n', 'e', 'r'], String.mk ['r', 'e', 'p', 'o'],
          parseIntDec ['0']⟩ :=
  resolveCompactRefs.1 ['o', 'w', 'n', 'e', 'r'] ['r', 'e', 'p', 'o'] ['0']
    (by decide) (by decide) (by decide) (by decide) (by decide) (by decide)
    (by decide)

/-! ## C7: the web-address form resolves identically under any scheme -/

/-- A leading scheme of the supported shapes is skipped by the leftmost
search. -/
lemma urlSearch_scheme (pre : List Char)
    (hpre : pre = [] ∨ pre = "http://".data ∨ pre = "https://".data)
    (X : List Char) : urlSearch (pre ++ X) = urlSearch X := by
  rcases hpre with rfl | rfl | rfl
  · rw [List.nil_append]
  · rw [show ("http://".data ++ X)
        = 'h' :: 't' :: 't' :: 'p' :: ':' :: '/' :: '/' :: X from rfl,
      urlSearch_skip_ne_g _ _ (by decide), urlSearch_skip_ne_g _ _ (by decide),
      urlSearch_skip_ne_g _ _ (by decide), urlSearch_skip_ne_g _ _ (by decide),
      urlSearch_skip_ne_g _ _ (by decide), urlSearch_skip_ne_g _ _ (by decide),
      urlSearch_skip_ne_g _ _ (by decide)]
  · rw [show ("https://".data ++ X)
        = 'h' :: 't' :: 't' :: 'p' :: 's' :: ':' :: '/' :: '/' :: X from rfl,
      urlSearch_skip_ne_g _ _ (by decide), urlSearch_skip_ne_g _ _ (by decide),
      urlSearch_skip_ne_g _ _ (by decide), urlSearch_skip_ne_g _ _ (by decide),
      urlSearch_skip_ne_g _ _ (by decide), urlSearch_skip_ne_g _ _ (by decide),
      urlSearch_skip_ne_g _ _ (by decide), urlSearch_skip_ne_g _ _ (by decide)]

/-- C7: a string consisting of the service host followed by the path segment
`/<namespace>/<name>/issues/<id>` (namespace and name non-empty runs without
slashes, id a non-empty digit run) resolves to the same triple whatever
addressing-scheme text precedes the host: none (bare host), unsecured
(`http://`) or secured (`https://`) transport. -/
theorem resolveUrlSchemes (pre ns name ds : List Char)
    (hpre : pre = [] ∨ pre = "http://".data ∨ pre = "https://".data)
    (hns : ns ≠ []) (hnsS : '/' ∉ ns)
    (hname : name ≠ []) (hnameS : '/' ∉ name)
    (hds : ds ≠ []) (hdsD : ∀ ch ∈ ds, ch.isDigit) :
    parseIssueInput (String.mk (pre ++ ("github.com/".data
        ++ (ns ++ ('/' :: (name ++ ("/issues/".data ++ ds)))))))
      = some ⟨String.mk ns, String.mk name, parseIntDec ds⟩ := by
  have hsm : shortMatch (String.mk (pre ++ ("github.com/".data
      ++ (ns ++ ('/' :: (name ++ ("/issues/".data ++ ds))))))) = none := by
    apply shortMatch_none_digit_tail _ (pre ++ ("github.com/".data
      ++ (ns ++ ('/' :: (name ++ "/issues".data))))) ds _ hdsD
    show pre ++ ("github.com/".data
        ++ (ns ++ ('/' :: (name ++ ("/issues/".data ++ ds)))))
      = pre ++ ("github.com/".data
        ++ (ns ++ ('/' :: (name ++ "/issues".data)))) ++ '/' :: ds
    simp [List.append_assoc]
  unfold parseIssueInput
  rw [hsm]
  dsimp only
  show urlSearch (pre ++ ("github.com/".data
      ++ (ns ++ ('/' :: (name ++ ("/issues/".data ++ ds)))))) = _
  rw [urlSearch_scheme pre hpre]
  exact urlSearch_hit ns name ds hns hnsS hname hnameS hds hdsD

theorem resolveUrlSchemes_witness :
    parseIssueInput (String.mk ("https://".data ++ ("github.com/".data
        ++ (['o'] ++ ('/' :: (['r'] ++ ("/issues/".data ++ ['4', '2'])))))))
      = some ⟨String.mk ['o'], String.mk ['r'], parseIntDec ['4', '2']⟩ :=
  resolveUrlSchemes "https://".data ['o'] ['r'] ['4', '2']
    (Or.inr (Or.inr rfl)) (by decide) (by decide) (by decide) (by decide)
    (by decide) (by decide)

end SubIssueCloser
